import Mathlib

/-!
Verification of the real-time audio delivery pipeline and the
connection-resilience state machine of the simili-v3 client.

The development shallowly embeds:
  * `AudioStreamer` (playback scheduler) from `src/unnamed/part_007`
    (`lib/audio-streamer.ts`): PCM16 decoding, chunk splitting, the
    scheduling loop with look-ahead and drift correction, interruption
    (`stop`) and push (`addPCM16`);
  * the PCM16 quantizer of `AudioProcessingWorklet.processChunk` from
    `src/lib/worklets/audio-processing.ts`;
  * `GenAILiveClient.connect` / status machine from `src/requirements.md`
    (lines 197-268);
  * the `useLiveApi` connection supervisor from `src/unnamed/part_004`
    (lines 590-1100): `attemptReconnect`, the inbound event handlers,
    and the heartbeat health check.

Time is modelled as an exact rational number of seconds (the
`AudioContext.currentTime` clock); float samples are modelled as exact
rationals.  The model is single-threaded and event-driven, as the source
is: each operation takes the clock value `now` observed during that call.
-/

namespace Simili

/-! ## PcmFrameCodec: decoding (AudioStreamer._processPCM16Chunk) -/

/-- Value of `dataView.getInt16(off, true)` when the two consecutive
bytes at `off` are `lo` and `hi`: the little-endian unsigned 16-bit
value `lo + 256 * hi` reinterpreted as a signed (two-complement) 16-bit
integer.  `Uint8Array` elements are bytes, hence the `% 256`. -/
def int16LE (lo hi : ℕ) : ℤ :=
  let v : ℤ := (lo % 256 : ℕ) + 256 * ((hi % 256 : ℕ) : ℤ)
  if v < 32768 then v else v - 65536

/-- Model of `AudioStreamer._processPCM16Chunk` (part_007 lines 126-139).

The source allocates `new Float32Array(chunk.length / 2)` and runs
`for (i = 0; i < chunk.length / 2; i++)` storing
`dataView.getInt16(i * 2, true) / 32768` at index `i`, with the body in a
`try { ... } catch { console.error }`.

For even `chunk.length = 2k` this produces exactly the `k` samples below.
For odd `chunk.length = 2k + 1`: per ECMAScript `ToIndex` (ES2020+,
which truncates a fractional length instead of throwing),
`new Float32Array(k + 0.5)` allocates `k` elements; the loop runs `k + 1`
iterations and the last one (`i = k`) calls `getInt16(2k)` on a buffer of
`2k + 1` bytes, which throws a `RangeError` that the `catch` swallows, so
the dangling tail byte is silently dropped.  Either way the result is the
`floor(chunk.length / 2)` complete little-endian pairs, and the function
never fails. -/
def _processPCM16Chunk : List ℕ → List ℚ
  | lo :: hi :: rest => (int16LE lo hi : ℚ) / 32768 :: _processPCM16Chunk rest
  | _ => []

/-! ## PcmFrameCodec: encoding (AudioProcessingWorklet.processChunk) -/

/-- JavaScript `Math.round`: round half toward positive infinity. -/
def jsRound (x : ℚ) : ℤ := ⌊x + 1 / 2⌋

/-- The quantization step of `AudioProcessingWorklet.processChunk`
(audio-processing.ts lines 141-144):
`clamped = Math.max(-1, Math.min(1, sample)); Math.round(clamped * 32767)`. -/
def quantizeSample (x : ℚ) : ℤ := jsRound (max (-1) (min 1 x) * 32767)

/-- Little-endian byte serialization of one int16 value, as laid out by
the worklet `Int16Array` buffer posted to the main thread
(little-endian platform layout). -/
def int16ToLEBytes (v : ℤ) : List ℕ :=
  let u := (v % 65536).toNat
  [u % 256, u / 256]

/-- Byte-level encoder: quantize each float sample and serialize. -/
def encodeSamples (xs : List ℚ) : List ℕ :=
  (xs.map (fun x => int16ToLEBytes (quantizeSample x))).flatten

/-! ## AudioStreamer state -/

/-- Constants of `AudioStreamer` (part_007 lines 27-43 and 221, 279). -/
def sampleRate : ℚ := 24000

/-- Maximum samples per scheduled unit (`bufferSize`, part_007 line 28). -/
def bufferSize : ℕ := 7680

/-- `initialBufferTime` (part_007 line 36): 100 ms initial buffer. -/
def initialBufferTime : ℚ := 1 / 10

/-- `SCHEDULE_AHEAD_TIME` (part_007 line 221): 1 second look-ahead. -/
def scheduleAheadTime : ℚ := 1

/-- `maxDrift` (part_007 line 279): 2 seconds. -/
def maxDrift : ℚ := 2

/-- `perSourceFadeSeconds` (part_007 line 43): 4 ms. -/
def perSourceFadeSeconds : ℚ := 1 / 250

/-- One scheduled playback unit: an `AudioBufferSourceNode` with its
per-chunk `sourceGain`, created in `scheduleNextBuffer`.  `start` is the
argument of `source.start(startTime)`, `dur` the buffer duration,
`fade` the linear fade-in/out length applied on `sourceGain`, and
`cancelled` records whether `source.stop(...)` has been called on it. -/
structure SUnit where
  start : ℚ
  dur : ℚ
  fade : ℚ
  cancelled : Bool
deriving DecidableEq

instance : Inhabited SUnit := ⟨⟨0, 0, 0, false⟩⟩

/-- State of an `AudioStreamer` object.  `scheduled` is the (observable)
history of playback units submitted to the audio hardware, in scheduling
order; `endOfQueueIdx` indexes into it, mirroring
`endOfQueueAudioSource`.  The debug-only fields `lastAddTime` /
`sameTimestampCount`, the analysis-worklet routing, the `onComplete`
callback and the 50 ms deferred gain-node swap in `stop` are not
modelled (none affects queueing, scheduling times, gain level or
cancellation). -/
structure Streamer where
  audioQueue : List (List ℚ)
  isPlaying : Bool
  isStreamComplete : Bool
  isInterrupted : Bool
  isScheduling : Bool
  checkInterval : Bool
  scheduledTime : ℚ
  gainValue : ℚ
  scheduled : List SUnit
  endOfQueueIdx : Option ℕ
deriving DecidableEq

/-- The freshly constructed streamer (field initializers, part_007
lines 27-53; the constructor creates `gainNode` with default gain 1). -/
def init : Streamer :=
  { audioQueue := []
    isPlaying := false
    isStreamComplete := false
    isInterrupted := false
    isScheduling := false
    checkInterval := false
    scheduledTime := 0
    gainValue := 1
    scheduled := []
    endOfQueueIdx := none }

/-- The splitting loop of `addPCM16` (part_007 lines 177-185): cut the
processed buffer into `bufferSize`-sample chunks, keeping a nonempty
remainder. -/
def splitChunks (buf : List ℚ) : List (List ℚ) :=
  if _h : bufferSize ≤ buf.length then
    buf.take bufferSize :: splitChunks (buf.drop bufferSize)
  else if buf.length = 0 then [] else [buf]
termination_by buf.length
decreasing_by
  simp only [List.length_drop]
  have hb : 0 < bufferSize := by decide
  omega

/-- Result of the scheduling `while` loop: the remaining queue, the final
cursor (`scheduledTime`) and the newly created playback units, in order. -/
structure SchedResult where
  queue : List (List ℚ)
  cursor : ℚ
  units : List SUnit
deriving DecidableEq

/-- The `while` loop of `scheduleNextBuffer` (part_007 lines 225-303):
while the queue is nonempty and `scheduledTime < now + SCHEDULE_AHEAD_TIME`,
shift the head buffer, apply the drift correction
(`if (scheduledTime - now > maxDrift) scheduledTime = now`), start the
unit at `max(scheduledTime, now)` with a
`min(perSourceFadeSeconds, duration / 4)` boundary fade, and advance the
cursor by the buffer duration.  `now` is the `context.currentTime`
observed during this call (the loop body takes no time in the
single-threaded model). -/
def scheduleUnits : List (List ℚ) → ℚ → ℚ → SchedResult
  | [], cursor, _ => ⟨[], cursor, []⟩
  | buf :: rest, cursor, now =>
    if cursor < now + scheduleAheadTime then
      let cursor1 := if maxDrift < cursor - now then now else cursor
      let startTime := max cursor1 now
      let dur : ℚ := buf.length / sampleRate
      let fade := min perSourceFadeSeconds (dur / 4)
      let r := scheduleUnits rest (startTime + dur) now
      ⟨r.queue, r.cursor, ⟨startTime, dur, fade, false⟩ :: r.units⟩
    else ⟨buf :: rest, cursor, []⟩

/-- `AudioStreamer.scheduleNextBuffer` (part_007 lines 211-337).  The
`isScheduling` re-entrancy guard is the early return; the trailing
bookkeeping sets `isPlaying := false` only when the stream is complete,
else arms the 100 ms check interval (the interval and the `setTimeout`
self-rescheduling are represented by further explicit tick operations in
the traces below).  `endOfQueueAudioSource` is replaced by the last unit
scheduled with an emptied queue, exactly when this call drained the
queue. -/
def scheduleNextBuffer (s : Streamer) (now : ℚ) : Streamer :=
  if s.isScheduling then s
  else
    let r := scheduleUnits s.audioQueue s.scheduledTime now
    let sched := s.scheduled ++ r.units
    let s1 : Streamer :=
      { s with
        audioQueue := r.queue
        scheduledTime := r.cursor
        scheduled := sched
        endOfQueueIdx :=
          if r.queue = [] ∧ r.units ≠ [] then some (sched.length - 1)
          else s.endOfQueueIdx }
    if r.queue = [] then
      if s1.isStreamComplete then
        { s1 with isPlaying := false, checkInterval := false }
      else { s1 with checkInterval := true }
    else s1

/-- `AudioStreamer.addPCM16` (part_007 lines 141-197).  If the streamer
was interrupted, this push resets for a brand-new stream: clear the
interruption flags, re-anchor the cursor at `now + initialBufferTime`,
restore the gain to 1 (`gainNode.gain.setValueAtTime(1, now)`) and drop
any stale queued frames.  Then the chunk is decoded, split and enqueued,
and when the streamer was not already playing, playback starts:
`isPlaying := true`, cursor anchored at `now + initialBufferTime`, and
an immediate `scheduleNextBuffer`. -/
def addPCM16 (s : Streamer) (chunk : List ℕ) (now : ℚ) : Streamer :=
  let s1 :=
    if s.isInterrupted then
      { s with
        isInterrupted := false
        isStreamComplete := false
        scheduledTime := now + initialBufferTime
        gainValue := 1
        audioQueue := [] }
    else s
  let s2 := { s1 with isStreamComplete := false }
  let buf := _processPCM16Chunk chunk
  let s3 := { s2 with audioQueue := s2.audioQueue ++ splitChunks buf }
  if s3.isPlaying then s3
  else
    scheduleNextBuffer
      { s3 with isPlaying := true, scheduledTime := now + initialBufferTime }
      now

/-- Mark the unit at index `i` cancelled (`source.stop(...)`). -/
def cancelAt : List SUnit → ℕ → List SUnit
  | [], _ => []
  | u :: rest, 0 => { u with cancelled := true } :: rest
  | u :: rest, n + 1 => u :: cancelAt rest n

/-- `AudioStreamer.stop` (part_007 lines 339-389): mark interrupted and
complete, clear the queue, snap the cursor to `now`, clear the check
interval, hard-cut the master gain to 0 with no ramp
(`gainNode.gain.setValueAtTime(0, now)`), and stop the tracked
end-of-queue source if any.  The 50 ms deferred swap to a fresh gain
node is not modelled; gain restoration is modelled at the next
`addPCM16` (as the source comments prescribe). -/
def stop (s : Streamer) (now : ℚ) : Streamer :=
  let s1 : Streamer :=
    { s with
      isPlaying := false
      isStreamComplete := true
      isInterrupted := true
      audioQueue := []
      scheduledTime := now
      checkInterval := false
      gainValue := 0 }
  let s2 : Streamer :=
    match s1.endOfQueueIdx with
    | some i => { s1 with scheduled := cancelAt s1.scheduled i, endOfQueueIdx := none }
    | none => s1
  { s2 with isScheduling := false }

/-- Whether unit `u` produces sound at time `t`: not stopped, and `t`
falls inside its scheduled interval. -/
def SUnit.activeAt (u : SUnit) (t : ℚ) : Bool :=
  !u.cancelled && decide (u.start ≤ t) && decide (t < u.start + u.dur)

/-- Whether the streamer output is audible at time `t`: the master gain
is nonzero and some scheduled, non-cancelled unit is playing at `t`
(all units feed through `gainNode`). -/
def audibleAt (s : Streamer) (t : ℚ) : Bool :=
  decide (s.gainValue ≠ 0) && s.scheduled.any (fun u => u.activeAt t)

/-! ## Streamer operation traces

Traces of operations on one streamer instance.  Each operation carries
the `context.currentTime` value observed during that call; the audio
hardware clock is an external, monotonically increasing input. -/

/-- Push and tick operations only (the sequences claim C1 ranges over). -/
inductive PTOp where
  | push (chunk : List ℕ) (now : ℚ)
  | tick (now : ℚ)
deriving DecidableEq

/-- One push or tick step. -/
def stepPT (s : Streamer) : PTOp → Streamer
  | .push c t => addPCM16 s c t
  | .tick t => scheduleNextBuffer s t

/-- Run a sequence of push and tick operations. -/
def runPT (s : Streamer) (tr : List PTOp) : Streamer := tr.foldl stepPT s

/-- Full operation alphabet: push, tick, and interrupt (`stop`). -/
inductive Op where
  | push (chunk : List ℕ) (now : ℚ)
  | tick (now : ℚ)
  | stop (now : ℚ)
deriving DecidableEq

/-- One step of the full alphabet. -/
def stepOp (s : Streamer) : Op → Streamer
  | .push c t => addPCM16 s c t
  | .tick t => scheduleNextBuffer s t
  | .stop t => stop s t

/-- Run a sequence of operations. -/
def runOps (s : Streamer) (tr : List Op) : Streamer := tr.foldl stepOp s

/-- The clock value observed by an operation. -/
def opTime : Op → ℚ
  | .push _ t => t
  | .tick t => t
  | .stop t => t

/-- The clock values along a trace are at least `T` and non-decreasing
(the audio output clock only moves forward). -/
def TimesFrom (T : ℚ) : List Op → Prop
  | [] => True
  | op :: rest => T ≤ opTime op ∧ TimesFrom (opTime op) rest

/-- The time of the last operation (`T` for the empty trace). -/
def lastTime (T : ℚ) (tr : List Op) : ℚ := tr.foldl (fun _ op => opTime op) T

/-! ## GenAILiveClient (requirements.md lines 197-277) -/

/-- `GenAILiveClient._status`. -/
inductive CStatus where
  | disconnected
  | connecting
  | connected
deriving DecidableEq

/-- Observable state of a `GenAILiveClient`: its status, the session it
holds (identified by creation ordinal), how many sessions it has opened,
and how many `error` events it has emitted. -/
structure ClientState where
  status : CStatus
  session : Option ℕ
  sessionsCreated : ℕ
  errorsEmitted : ℕ
deriving DecidableEq

/-- The synchronous prefix of `GenAILiveClient.connect` (lines 223-228):
the single-flight guard returns `false` without touching anything when a
connection is already connected or in flight, else the status moves to
`connecting` before the asynchronous `client.live.connect` call is
awaited.  The returned flag says whether the call proceeds. -/
def connectStart (s : ClientState) : ClientState × Bool :=
  if s.status = CStatus.connected ∨ s.status = CStatus.connecting then (s, false)
  else ({ s with status := CStatus.connecting }, true)

/-- Resolution of the awaited `client.live.connect` (lines 246-267).
`ok = false` models the promise rejecting: the `catch` block resets the
status to `disconnected`, clears the stored session, emits an `error`
event and returns `false`.  On success a new session is stored and the
status becomes `connected`, returning `true`. -/
def connectResolve (s : ClientState) (ok : Bool) : ClientState × Bool :=
  if ok then
    ({ s with
        status := CStatus.connected
        session := some s.sessionsCreated
        sessionsCreated := s.sessionsCreated + 1 }, true)
  else
    ({ s with
        status := CStatus.disconnected
        session := none
        errorsEmitted := s.errorsEmitted + 1 }, false)

/-- `GenAILiveClient.connect` run to completion with the underlying
live-connect outcome `ok`; the whole body is guarded, so it never throws
to the caller. -/
def connect (s : ClientState) (ok : Bool) : ClientState × Bool :=
  let r := connectStart s
  if r.2 then connectResolve r.1 ok else (r.1, false)

/-! ## useLiveApi connection supervisor (part_004 lines 590-1100) -/

/-- `ConnectionStatus` of the hook. -/
inductive ConnStatus where
  | disconnected
  | connecting
  | connected
  | reconnecting
  | error
deriving DecidableEq

/-- `MAX_RECONNECT_ATTEMPTS` (part_004 line 643). -/
def MAX_RECONNECT_ATTEMPTS : ℕ := 5

/-- `RECONNECT_DELAY_MS` (part_004 line 644). -/
def RECONNECT_DELAY_MS : ℕ := 2000

/-- `HEALTH_CHECK_INTERVAL` (part_004 line 940). -/
def HEALTH_CHECK_INTERVAL : ℕ := 60000

/-- `HEARTBEAT_TIMEOUT` (part_004 line 941). -/
def HEARTBEAT_TIMEOUT : ℕ := 300000

/-- Supervisor state held by the `useLiveApi` hook: React state plus the
refs.  `lastHeartbeat` and health-check times are in milliseconds
(`Date.now()`).  `reconnectTimerPending` mirrors `reconnectTimeoutRef`,
`clientForceClosed` records that the health check called
`client.disconnect()`. -/
structure LiveApiState where
  connected : Bool
  connectionStatus : ConnStatus
  connectionError : Option String
  reconnectAttempts : ℕ
  reconnectTimerPending : Bool
  manualDisconnect : Bool
  lastHeartbeat : ℕ
  clientForceClosed : Bool
deriving DecidableEq

/-- `attemptReconnect` (part_004 lines 708-740): skip entirely on manual
disconnect; at or above the attempt cap surface the terminal error state
and schedule nothing; otherwise bump the counter, move to
`reconnecting`, and arm the backoff timer. -/
def attemptReconnect (s : LiveApiState) : LiveApiState :=
  if s.manualDisconnect then s
  else if MAX_RECONNECT_ATTEMPTS ≤ s.reconnectAttempts then
    { s with
      connectionStatus := ConnStatus.error
      connectionError := some "Failed to reconnect after multiple attempts" }
  else
    { s with
      reconnectAttempts := s.reconnectAttempts + 1
      connectionStatus := ConnStatus.reconnecting
      connectionError := some "Reconnecting"
      reconnectTimerPending := true }

/-- The body of the backoff timer (part_004 lines 726-739): the timer
fires, `connect()` is awaited; on success the attempt counter and error
reset, on failure `attemptReconnect` recurses. -/
def reconnectTimerFires (s : LiveApiState) (ok : Bool) : LiveApiState :=
  let s1 := { s with reconnectTimerPending := false }
  if ok then { s1 with reconnectAttempts := 0, connectionError := none }
  else attemptReconnect s1

/-- `n` consecutive reconnect-timer failures. -/
def failuresAfter (s : LiveApiState) : ℕ → LiveApiState
  | 0 => s
  | n + 1 => reconnectTimerFires (failuresAfter s n) false

/-- Inbound events dispatched to the hook handlers (part_004 lines
754-913). -/
inductive LiveEvent where
  | opened
  | closed
  | errored
  | setupcomplete
  | interrupted
  | audio
  | toolcall
deriving DecidableEq

/-- The hook event handlers (part_004 lines 754-913).  `onOpen` marks
connected, resets the attempt counter and refreshes the heartbeat;
`onClose` clears `connected` and, unless the disconnect was manual,
moves to `reconnecting` and calls `attemptReconnect`; `onError` surfaces
the error status; `onAudio` refreshes the heartbeat (and feeds the audio
streamer, modelled separately); `onSetupComplete`, the `interrupted`
handler (which only calls `AudioStreamer.stop`) and `onToolCall` do not
touch the heartbeat timestamp. -/
def handleEvent (s : LiveApiState) (e : LiveEvent) (now : ℕ) : LiveApiState :=
  match e with
  | .opened =>
    { s with
      connected := true
      connectionStatus := ConnStatus.connected
      connectionError := none
      reconnectAttempts := 0
      lastHeartbeat := now }
  | .closed =>
    let s1 := { s with connected := false }
    if s1.manualDisconnect then { s1 with connectionStatus := ConnStatus.disconnected }
    else attemptReconnect { s1 with connectionStatus := ConnStatus.reconnecting }
  | .errored =>
    { s with
      connectionStatus := ConnStatus.error
      connectionError := some "Connection error occurred" }
  | .setupcomplete => s
  | .interrupted => s
  | .audio => { s with lastHeartbeat := now }
  | .toolcall => s

/-- One firing of the health-check interval (part_004 lines 943-954):
while connected, if no inbound activity for more than
`HEARTBEAT_TIMEOUT` ms, force-close the channel via
`client.disconnect()` (whose `close` event then drives the reconnect
path). -/
def healthCheck (s : LiveApiState) (now : ℕ) : LiveApiState :=
  if s.connected ∧ HEARTBEAT_TIMEOUT < now - s.lastHeartbeat then
    { s with clientForceClosed := true }
  else s

/-! ## Codec lemmas -/

/-- Induction two list elements at a time, matching the 16-bit pair
structure of the decoder. -/
theorem twoStepInduction {motive : List ℕ → Prop} (h0 : motive [])
    (h1 : ∀ a, motive [a])
    (h2 : ∀ a b l, motive l → motive (a :: b :: l)) : ∀ l, motive l
  | [] => h0
  | [a] => h1 a
  | a :: b :: l => h2 a b l (twoStepInduction h0 h1 h2 l)

theorem processPCM16Chunk_length (c : List ℕ) :
    (_processPCM16Chunk c).length = c.length / 2 := by
  induction c using twoStepInduction with
  | h0 => simp [_processPCM16Chunk]
  | h1 a => simp [_processPCM16Chunk]
  | h2 a b l ih => simp only [_processPCM16Chunk, List.length_cons, ih]; omega

theorem processPCM16Chunk_append_singleton (c : List ℕ) (b : ℕ)
    (h : c.length % 2 = 0) :
    _processPCM16Chunk (c ++ [b]) = _processPCM16Chunk c := by
  induction c using twoStepInduction with
  | h0 => rfl
  | h1 a => simp at h
  | h2 x y l ih =>
    have hl : l.length % 2 = 0 := by
      simp only [List.length_cons] at h; omega
    simp only [List.cons_append, _processPCM16Chunk, List.append_eq]
    rw [ih hl]

theorem processPCM16Chunk_getD (c : List ℕ) :
    ∀ i : ℕ, 2 * i + 1 < c.length →
      (_processPCM16Chunk c).getD i 0 =
        (int16LE (c.getD (2 * i) 0) (c.getD (2 * i + 1) 0) : ℚ) / 32768 := by
  induction c using twoStepInduction with
  | h0 => intro i hi; simp at hi
  | h1 a => intro i hi; simp only [List.length_singleton] at hi; omega
  | h2 x y l ih =>
    intro i hi
    match i with
    | 0 => simp [_processPCM16Chunk]
    | j + 1 =>
      have hj : 2 * j + 1 < l.length := by
        simp only [List.length_cons] at hi; omega
      have h2j : 2 * (j + 1) = 2 * j + 1 + 1 := by ring
      have h2j' : 2 * (j + 1) + 1 = (2 * j + 1) + 1 + 1 := by ring
      simp only [_processPCM16Chunk, List.getD_cons_succ, h2j, h2j']
      exact ih j hj

theorem int16LE_bounds (lo hi : ℕ) :
    -32768 ≤ int16LE lo hi ∧ int16LE lo hi ≤ 32767 := by
  have hlo : (lo % 256 : ℕ) ≤ 255 := Nat.le_of_lt_succ (Nat.mod_lt _ (by omega))
  have hhi : (hi % 256 : ℕ) ≤ 255 := Nat.le_of_lt_succ (Nat.mod_lt _ (by omega))
  have h1 : ((lo % 256 : ℕ) : ℤ) ≤ 255 := by exact_mod_cast hlo
  have h2 : ((hi % 256 : ℕ) : ℤ) ≤ 255 := by exact_mod_cast hhi
  have h3 : (0 : ℤ) ≤ ((lo % 256 : ℕ) : ℤ) := Int.natCast_nonneg _
  have h4 : (0 : ℤ) ≤ ((hi % 256 : ℕ) : ℤ) := Int.natCast_nonneg _
  simp only [int16LE]
  split <;> omega

/-! ## Streamer invariants for the scheduling claims -/

/-- Successive scheduled units neither move backwards nor overlap: each
unit starts no earlier than the previous one, and no earlier than the
previous one's end time. -/
def unitsChained (l : List SUnit) : Prop :=
  List.Chain' (fun u v => u.start ≤ v.start ∧ u.start + u.dur ≤ v.start) l

theorem sampleRate_pos : (0 : ℚ) < sampleRate := by norm_num [sampleRate]

/-- Core facts about one run of the scheduling loop: the produced units
are chained, start no earlier than the incoming cursor, the cursor never
moves backwards, the final cursor bounds the last unit's end, and
durations are nonnegative. -/
theorem scheduleUnits_spec :
    ∀ (queue : List (List ℚ)) (cursor now : ℚ),
      unitsChained (scheduleUnits queue cursor now).units ∧
      (∀ u ∈ (scheduleUnits queue cursor now).units.head?, cursor ≤ u.start) ∧
      cursor ≤ (scheduleUnits queue cursor now).cursor ∧
      (∀ u ∈ (scheduleUnits queue cursor now).units.getLast?,
        u.start + u.dur ≤ (scheduleUnits queue cursor now).cursor) ∧
      (∀ u ∈ (scheduleUnits queue cursor now).units, 0 ≤ u.dur)
  | [], cursor, now => by
    simp [scheduleUnits, unitsChained]
  | buf :: rest, cursor, now => by
    by_cases hc : cursor < now + scheduleAheadTime
    · have hd : ¬ maxDrift < cursor - now := by
        simp only [not_lt]
        have : scheduleAheadTime ≤ maxDrift := by norm_num [scheduleAheadTime, maxDrift]
        linarith
      have hdur : (0 : ℚ) ≤ (buf.length : ℚ) / sampleRate :=
        div_nonneg (by positivity) (le_of_lt sampleRate_pos)
      have hstart : cursor ≤ max cursor now := le_max_left _ _
      obtain ⟨ihChain, ihHead, ihCursor, ihLast, ihDur⟩ :=
        scheduleUnits_spec rest (max cursor now + (buf.length : ℚ) / sampleRate) now
      simp only [scheduleUnits, if_pos hc, if_neg hd]
      refine ⟨?_, ?_, ?_, ?_, ?_⟩
      · rw [unitsChained, List.chain'_cons']
        refine ⟨?_, ihChain⟩
        intro y hy
        have h1 := ihHead y hy
        constructor <;> [skip; linarith]
        have : max cursor now ≤ max cursor now + (buf.length : ℚ) / sampleRate := by linarith
        linarith
      · intro u hu
        simp only [List.head?_cons, Option.mem_def, Option.some.injEq] at hu
        subst hu
        exact hstart
      · calc cursor ≤ max cursor now + (buf.length : ℚ) / sampleRate := by linarith
          _ ≤ _ := ihCursor
      · intro u hu
        rcases hrest : (scheduleUnits rest (max cursor now + (buf.length : ℚ) / sampleRate) now).units with _ | ⟨v, vs⟩
        · rw [hrest] at hu
          simp only [List.getLast?_singleton, Option.mem_def, Option.some.injEq] at hu
          subst hu
          simpa using ihCursor
        · rw [hrest] at hu
          rw [show (⟨max cursor now, (buf.length : ℚ) / sampleRate,
              min perSourceFadeSeconds ((buf.length : ℚ) / sampleRate / 4), false⟩ : SUnit) ::
              v :: vs = [⟨max cursor now, (buf.length : ℚ) / sampleRate,
              min perSourceFadeSeconds ((buf.length : ℚ) / sampleRate / 4), false⟩] ++ v :: vs
              from rfl] at hu
          rw [List.getLast?_append_of_ne_nil _ (by simp)] at hu
          have := ihLast u (by rw [hrest]; exact hu)
          exact this
      · intro u hu
        rcases List.mem_cons.mp hu with rfl | hu'
        · exact hdur
        · exact ihDur u hu'
    · simp only [scheduleUnits, if_neg hc]
      simp [unitsChained]

theorem scheduleUnits_queue_sub :
    ∀ (queue : List (List ℚ)) (cursor now : ℚ),
      ∀ b ∈ (scheduleUnits queue cursor now).queue, b ∈ queue
  | [], cursor, now => by simp [scheduleUnits]
  | buf :: rest, cursor, now => by
    by_cases hc : cursor < now + scheduleAheadTime
    · simp only [scheduleUnits, if_pos hc]
      intro b hb
      exact List.mem_cons_of_mem _ (scheduleUnits_queue_sub rest _ now b hb)
    · simp only [scheduleUnits, if_neg hc]
      intro b hb
      exact hb

theorem splitChunks_length_le (buf : List ℚ) :
    ∀ b ∈ splitChunks buf, b.length ≤ bufferSize := by
  rw [splitChunks]
  by_cases h : bufferSize ≤ buf.length
  · rw [dif_pos h]
    intro b hb
    rcases List.mem_cons.mp hb with rfl | hb'
    · simp
    · exact splitChunks_length_le (buf.drop bufferSize) b hb'
  · rw [dif_neg h]
    by_cases h0 : buf.length = 0
    · rw [if_pos h0]; intro b hb; simp at hb
    · rw [if_neg h0]; intro b hb
      rcases List.mem_singleton.mp hb with rfl
      omega
termination_by buf.length
decreasing_by
  simp only [List.length_drop]
  have hb : 0 < bufferSize := by decide
  omega

theorem splitChunks_ne_nil (buf : List ℚ) (h : buf ≠ []) :
    splitChunks buf ≠ [] := by
  rw [splitChunks]
  by_cases hb : bufferSize ≤ buf.length
  · rw [dif_pos hb]; simp
  · rw [dif_neg hb]
    have h0 : buf.length ≠ 0 := by
      intro h0; exact h (List.length_eq_zero.mp h0)
    rw [if_neg h0]; simp

theorem processPCM16Chunk_ne_nil (chunk : List ℕ) (h : 2 ≤ chunk.length) :
    _processPCM16Chunk chunk ≠ [] := by
  match chunk with
  | [] => simp at h
  | [a] => simp at h
  | a :: b :: rest => simp [_processPCM16Chunk]

/-- Fields of `scheduleNextBuffer` that are independent of the trailing
interval bookkeeping, when the re-entrancy guard lets it run. -/
theorem scheduleNextBuffer_fields (s : Streamer) (now : ℚ)
    (h : s.isScheduling = false) :
    (scheduleNextBuffer s now).scheduled =
      s.scheduled ++ (scheduleUnits s.audioQueue s.scheduledTime now).units ∧
    (scheduleNextBuffer s now).audioQueue =
      (scheduleUnits s.audioQueue s.scheduledTime now).queue ∧
    (scheduleNextBuffer s now).scheduledTime =
      (scheduleUnits s.audioQueue s.scheduledTime now).cursor ∧
    (scheduleNextBuffer s now).gainValue = s.gainValue ∧
    (scheduleNextBuffer s now).isStreamComplete = s.isStreamComplete ∧
    (scheduleNextBuffer s now).isInterrupted = s.isInterrupted ∧
    (scheduleNextBuffer s now).isScheduling = s.isScheduling := by
  simp only [scheduleNextBuffer, h, Bool.false_eq_true, if_false]
  split
  · split <;> simp [h]
  · simp [h]

/-- Invariant maintained along push/tick traces: the scheduled history
is chained, the cursor is at or past the last scheduled end, durations
are nonnegative, the completion and interruption flags are clear, and
nothing has been scheduled or queued before the first push. -/
def SchedInv (s : Streamer) : Prop :=
  unitsChained s.scheduled ∧
  (∀ u ∈ s.scheduled.getLast?, u.start + u.dur ≤ s.scheduledTime) ∧
  (∀ u ∈ s.scheduled, 0 ≤ u.dur) ∧
  s.isStreamComplete = false ∧
  s.isInterrupted = false ∧
  s.isScheduling = false ∧
  (s.isPlaying = false → s.scheduled = [] ∧ s.audioQueue = [])

theorem scheduleNextBuffer_inv (s : Streamer) (now : ℚ) (h : SchedInv s) :
    SchedInv (scheduleNextBuffer s now) := by
  obtain ⟨hChain, hLast, hDur, hSC, hInt, hG, hIdle⟩ := h
  obtain ⟨fSched, fQueue, fCursor, fGain, fSC, fInt, fG⟩ :=
    scheduleNextBuffer_fields s now hG
  obtain ⟨uChain, uHead, uCursor, uLast, uDur⟩ :=
    scheduleUnits_spec s.audioQueue s.scheduledTime now
  have hPlay : (scheduleNextBuffer s now).isPlaying = false → s.isPlaying = false := by
    intro hp
    by_contra htrue
    have hst : s.isPlaying = true := by
      cases hq : s.isPlaying
      · exact absurd hq htrue
      · rfl
    simp only [scheduleNextBuffer, hG, Bool.false_eq_true, if_false] at hp
    revert hp
    split
    · split
      · intro _
        simp_all
      · intro hp
        simp only at hp
        rw [hst] at hp
        exact Bool.true_eq_false.mp hp
    · intro hp
      simp only at hp
      rw [hst] at hp
      exact Bool.true_eq_false.mp hp
  refine ⟨?_, ?_, ?_, ?_, ?_, ?_, ?_⟩
  · rw [fSched, unitsChained, List.chain'_append]
    refine ⟨hChain, uChain, ?_⟩
    intro x hx y hy
    have h1 := hLast x hx
    have h2 := uHead y hy
    have h3 : 0 ≤ x.dur := hDur x (List.mem_of_mem_getLast? hx)
    exact ⟨by linarith, by linarith⟩
  · rw [fSched, fCursor]
    rcases hu : (scheduleUnits s.audioQueue s.scheduledTime now).units with _ | ⟨v, vs⟩
    · simp only [List.append_nil]
      intro u hu'
      have := hLast u hu'
      linarith [uCursor]
    · rw [List.getLast?_append_of_ne_nil _ (List.cons_ne_nil v vs)]
      intro u hu'
      exact uLast u (by rw [hu]; exact hu')
  · rw [fSched]
    intro u hu'
    rcases List.mem_append.mp hu' with h' | h'
    · exact hDur u h'
    · exact uDur u h'
  · rw [fSC]; exact hSC
  · rw [fInt]; exact hInt
  · rw [fG]; exact hG
  · intro hp
    have hsp := hPlay hp
    obtain ⟨hs0, hq0⟩ := hIdle hsp
    have hu0 : scheduleUnits s.audioQueue s.scheduledTime now = ⟨[], s.scheduledTime, []⟩ := by
      rw [hq0]; simp [scheduleUnits]
    constructor
    · rw [fSched, hu0, hs0]; rfl
    · rw [fQueue, hu0]

theorem addPCM16_inv (s : Streamer) (chunk : List ℕ) (now : ℚ)
    (h : SchedInv s) : SchedInv (addPCM16 s chunk now) := by
  obtain ⟨hChain, hLast, hDur, hSC, hInt, hG, hIdle⟩ := h
  rw [addPCM16]
  simp only [hInt, Bool.false_eq_true, if_false]
  by_cases hp : s.isPlaying = true
  · simp only [hp, if_true]
    exact ⟨hChain, hLast, hDur, rfl, rfl, hG, by intro h0; simp [hp] at h0⟩
  · have hp' : s.isPlaying = false := by
      cases hq : s.isPlaying
      · rfl
      · exact absurd hq hp
    obtain ⟨hs0, hq0⟩ := hIdle hp'
    simp only [hp', Bool.false_eq_true, if_false]
    apply scheduleNextBuffer_inv
    refine ⟨hChain, ?_, hDur, rfl, rfl, hG, ?_⟩
    · rw [hs0]; intro u hu; simp at hu
    · intro h0; simp at h0

def initSchedInv : SchedInv init :=
  ⟨List.chain'_nil, by simp [init], by simp [init], rfl, rfl, rfl,
   fun _ => ⟨rfl, rfl⟩⟩

theorem stepPT_inv (s : Streamer) (op : PTOp) (h : SchedInv s) :
    SchedInv (stepPT s op) := by
  cases op with
  | push c t => exact addPCM16_inv s c t h
  | tick t => exact scheduleNextBuffer_inv s t h

theorem runPT_inv (tr : List PTOp) :
    ∀ s : Streamer, SchedInv s → SchedInv (runPT s tr) := by
  induction tr with
  | nil => intro s h; exact h
  | cons op rest ih =>
    intro s h
    exact ih (stepPT s op) (stepPT_inv s op h)

/-! ## Drift machinery for claim C7 -/

/-- The worst-case cursor lead after one scheduling pass: the look-ahead
window plus one maximal buffer duration. -/
def cursorLead : ℚ := scheduleAheadTime + (bufferSize : ℚ) / sampleRate

theorem cursorLead_le_maxDrift : cursorLead ≤ maxDrift := by
  norm_num [cursorLead, scheduleAheadTime, bufferSize, sampleRate, maxDrift]

/-- Invariant relative to the clock value `T` of the last operation: the
cursor leads the clock by at most `cursorLead`, and every queued buffer
respects the `bufferSize` split bound. -/
def DriftInv (s : Streamer) (T : ℚ) : Prop :=
  s.scheduledTime ≤ T + cursorLead ∧
  ∀ b ∈ s.audioQueue, b.length ≤ bufferSize

theorem scheduleUnits_cursor_bound :
    ∀ (queue : List (List ℚ)) (cursor now : ℚ),
      (∀ b ∈ queue, b.length ≤ bufferSize) →
      (scheduleUnits queue cursor now).cursor ≤ max cursor (now + cursorLead)
  | [], cursor, now => by
    intro _
    simp only [scheduleUnits]
    exact le_max_left _ _
  | buf :: rest, cursor, now => by
    intro hq
    by_cases hc : cursor < now + scheduleAheadTime
    · have hd : ¬ maxDrift < cursor - now := by
        simp only [not_lt]
        have : scheduleAheadTime ≤ maxDrift := by norm_num [scheduleAheadTime, maxDrift]
        linarith
      simp only [scheduleUnits, if_pos hc, if_neg hd]
      have hlen : (buf.length : ℚ) ≤ (bufferSize : ℚ) := by
        exact_mod_cast hq buf (List.mem_cons_self _ _)
      have hdle : (buf.length : ℚ) / sampleRate ≤ (bufferSize : ℚ) / sampleRate :=
        (div_le_div_iff_of_pos_right sampleRate_pos).mpr hlen
      have hnext : max cursor now + (buf.length : ℚ) / sampleRate ≤ now + cursorLead := by
        have h1 : max cursor now < now + scheduleAheadTime :=
          max_lt hc (by linarith [show (0:ℚ) < scheduleAheadTime from by norm_num [scheduleAheadTime]])
        rw [cursorLead]
        linarith
      have := scheduleUnits_cursor_bound rest (max cursor now + (buf.length : ℚ) / sampleRate) now
        (fun b hb => hq b (List.mem_cons_of_mem _ hb))
      calc (scheduleUnits rest (max cursor now + (buf.length : ℚ) / sampleRate) now).cursor
          ≤ max (max cursor now + (buf.length : ℚ) / sampleRate) (now + cursorLead) := this
        _ ≤ now + cursorLead := max_le hnext le_rfl
        _ ≤ max cursor (now + cursorLead) := le_max_right _ _
    · simp only [scheduleUnits, if_neg hc]
      exact le_max_left _ _

theorem scheduleNextBuffer_queue_sub (s : Streamer) (now : ℚ) :
    ∀ b ∈ (scheduleNextBuffer s now).audioQueue, b ∈ s.audioQueue := by
  by_cases hg : s.isScheduling = true
  · rw [scheduleNextBuffer, if_pos hg]
    intro b hb
    exact hb
  · have hg' : s.isScheduling = false := by
      cases hq : s.isScheduling
      · rfl
      · exact absurd hq hg
    obtain ⟨_, fQueue, _, _, _, _, _⟩ := scheduleNextBuffer_fields s now hg'
    rw [fQueue]
    exact scheduleUnits_queue_sub s.audioQueue s.scheduledTime now

/-- Dissection of `addPCM16`: every buffer in the resulting queue is
either an old queued buffer or a piece of the split decoded chunk. -/
theorem addPCM16_queue_mem (s : Streamer) (chunk : List ℕ) (now : ℚ) :
    ∀ b ∈ (addPCM16 s chunk now).audioQueue,
      b ∈ s.audioQueue ∨ b ∈ splitChunks (_processPCM16Chunk chunk) := by
  intro b hb
  rw [addPCM16] at hb
  by_cases hi : s.isInterrupted = true
  · simp only [hi, if_true] at hb
    split at hb
    · dsimp only at hb
      rw [List.nil_append] at hb
      exact Or.inr hb
    · have h2 := scheduleNextBuffer_queue_sub _ now b hb
      dsimp only at h2
      rw [List.nil_append] at h2
      exact Or.inr h2
  · have hi' : s.isInterrupted = false := by
      cases hq : s.isInterrupted
      · rfl
      · exact absurd hq hi
    simp only [hi', Bool.false_eq_true, if_false] at hb
    split at hb
    · dsimp only at hb
      exact List.mem_append.mp hb
    · have h2 := scheduleNextBuffer_queue_sub _ now b hb
      dsimp only at h2
      exact List.mem_append.mp h2

theorem addPCM16_queue_bound (s : Streamer) (chunk : List ℕ) (now : ℚ)
    (h : ∀ b ∈ s.audioQueue, b.length ≤ bufferSize) :
    ∀ b ∈ (addPCM16 s chunk now).audioQueue, b.length ≤ bufferSize := by
  intro b hb
  rcases addPCM16_queue_mem s chunk now b hb with h' | h'
  · exact h b h'
  · exact splitChunks_length_le _ b h'

theorem initialBufferTime_le_cursorLead : initialBufferTime ≤ cursorLead := by
  norm_num [initialBufferTime, cursorLead, scheduleAheadTime, bufferSize, sampleRate]

theorem scheduleNextBuffer_cursor_bound (s : Streamer) (now : ℚ)
    (hq : ∀ b ∈ s.audioQueue, b.length ≤ bufferSize) :
    (scheduleNextBuffer s now).scheduledTime ≤
      max s.scheduledTime (now + cursorLead) := by
  by_cases hg : s.isScheduling = true
  · rw [scheduleNextBuffer, if_pos hg]
    exact le_max_left _ _
  · have hg' : s.isScheduling = false := by
      cases hx : s.isScheduling
      · rfl
      · exact absurd hx hg
    obtain ⟨_, _, fCursor, _, _, _, _⟩ := scheduleNextBuffer_fields s now hg'
    rw [fCursor]
    exact scheduleUnits_cursor_bound s.audioQueue s.scheduledTime now hq

theorem addPCM16_cursor_bound (s : Streamer) (chunk : List ℕ) (now T : ℚ)
    (h : DriftInv s T) (hT : T ≤ now) :
    (addPCM16 s chunk now).scheduledTime ≤ now + cursorLead := by
  obtain ⟨hc, hq⟩ := h
  have hsplit : ∀ b ∈ splitChunks (_processPCM16Chunk chunk), b.length ≤ bufferSize :=
    splitChunks_length_le _
  rw [addPCM16]
  by_cases hi : s.isInterrupted = true
  · simp only [hi, if_true]
    split
    · dsimp only
      linarith [initialBufferTime_le_cursorLead]
    · refine le_trans (scheduleNextBuffer_cursor_bound _ now ?_) ?_
      · intro b hb
        dsimp only at hb
        rw [List.nil_append] at hb
        exact hsplit b hb
      · dsimp only
        rw [max_le_iff]
        exact ⟨by linarith [initialBufferTime_le_cursorLead], le_rfl⟩
  · have hi' : s.isInterrupted = false := by
      cases hx : s.isInterrupted
      · rfl
      · exact absurd hx hi
    simp only [hi', Bool.false_eq_true, if_false]
    split
    · dsimp only
      linarith
    · refine le_trans (scheduleNextBuffer_cursor_bound _ now ?_) ?_
      · intro b hb
        dsimp only at hb
        rcases List.mem_append.mp hb with h' | h'
        · exact hq b h'
        · exact hsplit b h'
      · dsimp only
        rw [max_le_iff]
        exact ⟨by linarith [initialBufferTime_le_cursorLead], le_rfl⟩

theorem stop_fields (s : Streamer) (now : ℚ) :
    (stop s now).gainValue = 0 ∧ (stop s now).audioQueue = [] ∧
    (stop s now).scheduledTime = now ∧ (stop s now).isPlaying = false ∧
    (stop s now).isStreamComplete = true ∧ (stop s now).isInterrupted = true ∧
    (stop s now).isScheduling = false ∧ (stop s now).endOfQueueIdx = none ∧
    (stop s now).checkInterval = false := by
  rw [stop]
  cases s.endOfQueueIdx <;> simp

theorem stepOp_drift (s : Streamer) (op : Op) (T : ℚ)
    (h : DriftInv s T) (hT : T ≤ opTime op) :
    DriftInv (stepOp s op) (opTime op) := by
  cases op with
  | push c t =>
    exact ⟨addPCM16_cursor_bound s c t T h hT,
           addPCM16_queue_bound s c t h.2⟩
  | tick t =>
    refine ⟨?_, ?_⟩
    · have := scheduleNextBuffer_cursor_bound s t h.2
      have hle : s.scheduledTime ≤ t + cursorLead := by
        have := h.1
        simp only [opTime] at hT
        linarith
      exact le_trans this (max_le hle le_rfl)
    · intro b hb
      exact h.2 b (scheduleNextBuffer_queue_sub s t b hb)
  | stop t =>
    obtain ⟨_, fq, fc, _⟩ := stop_fields s t
    simp only [stepOp, opTime]
    refine ⟨?_, ?_⟩
    · rw [fc]
      have : (0 : ℚ) ≤ cursorLead := by
        norm_num [cursorLead, scheduleAheadTime, bufferSize, sampleRate]
      linarith
    · rw [fq]
      intro b hb
      simp at hb

theorem runOps_drift (tr : List Op) :
    ∀ (T : ℚ) (s : Streamer), DriftInv s T → TimesFrom T tr →
      DriftInv (runOps s tr) (lastTime T tr) := by
  induction tr with
  | nil => intro T s h _; exact h
  | cons op rest ih =>
    intro T s h htimes
    obtain ⟨hT, hrest⟩ := htimes
    exact ih (opTime op) (stepOp s op) (stepOp_drift s op T h hT) hrest

theorem initDriftInv : DriftInv init 0 := by
  constructor
  · norm_num [init, cursorLead, scheduleAheadTime, bufferSize, sampleRate]
  · intro b hb; simp [init] at hb

theorem lastTime_append_single (T : ℚ) (tr : List Op) (op : Op) :
    lastTime T (tr ++ [op]) = opTime op := by
  rw [lastTime, List.foldl_append]
  rfl

/-! ## Claim theorems -/

/-- C1: for every sequence of push (`addPCM16`) and tick
(`scheduleNextBuffer`) operations on a fresh playback scheduler, the
start times of successive scheduled playback units are non-decreasing
and each unit starts at or after the previous unit's end time
(`start + dur`), so no two scheduled units overlap in time; unit
durations are nonnegative. -/
theorem c1_scheduled_units_chained (tr : List PTOp) :
    unitsChained (runPT init tr).scheduled ∧
    ∀ u ∈ (runPT init tr).scheduled, 0 ≤ u.dur := by
  have h := runPT_inv tr init initSchedInv
  exact ⟨h.1, h.2.2.1⟩

/-- C7: immediately after any tick (`scheduleNextBuffer`) completes at
clock value `t` — after any prior sequence of push, tick and interrupt
operations at non-decreasing, nonnegative clock values — the schedule
cursor leads the clock by at most `maxDrift` (2 seconds). -/
theorem c7_drift_bounded_after_tick (tr : List Op) (t : ℚ)
    (h : TimesFrom 0 (tr ++ [Op.tick t])) :
    (runOps init (tr ++ [Op.tick t])).scheduledTime - t ≤ maxDrift := by
  have hd := runOps_drift (tr ++ [Op.tick t]) 0 init initDriftInv h
  rw [lastTime_append_single] at hd
  have h1 := hd.1
  simp only [opTime] at h1
  linarith [cursorLead_le_maxDrift]

/-- Witness for C7 at the concrete trace consisting of one tick at
clock 0. -/
theorem c7_witness :
    TimesFrom 0 [Op.tick 0] ∧
    (runOps init [Op.tick 0]).scheduledTime - 0 ≤ maxDrift := by
  have h : TimesFrom 0 [Op.tick 0] := ⟨le_refl 0, trivial⟩
  exact ⟨h, c7_drift_bounded_after_tick [] 0 h⟩

/-- C4: `GenAILiveClient.connect` is single-flight: called while a
connection attempt is in flight or while connected, it is a no-op
returning `false` and opens no session; two `connect()` calls issued
before the first resolves create exactly one session. -/
theorem c4_connect_single_flight (s1 s2 : ClientState)
    (h1 : s1.status = CStatus.connecting ∨ s1.status = CStatus.connected)
    (h2 : s2.status = CStatus.disconnected) :
    connectStart s1 = (s1, false) ∧
    (connectStart s2).2 = true ∧
    connectStart (connectStart s2).1 = ((connectStart s2).1, false) ∧
    (connectResolve (connectStart (connectStart s2).1).1 true).1.sessionsCreated
      = s2.sessionsCreated + 1 ∧
    (connectResolve (connectStart (connectStart s2).1).1 true).1.session
      = some s2.sessionsCreated := by
  refine ⟨?_, ?_, ?_, ?_, ?_⟩
  · rcases h1 with h | h <;> simp [connectStart, h]
  all_goals simp [connectStart, connectResolve, h2]

/-- Witness for C4: a client mid-connect ignores a second `connect`,
and from `disconnected` the start-start-resolve interleaving creates
exactly one session. -/
theorem c4_witness :
    ((⟨CStatus.connecting, none, 0, 0⟩ : ClientState).status = CStatus.connecting ∨
      (⟨CStatus.connecting, none, 0, 0⟩ : ClientState).status = CStatus.connected) ∧
    (⟨CStatus.disconnected, none, 0, 0⟩ : ClientState).status = CStatus.disconnected ∧
    connectStart ⟨CStatus.connecting, none, 0, 0⟩ =
      (⟨CStatus.connecting, none, 0, 0⟩, false) ∧
    (connectResolve (connectStart
        (connectStart ⟨CStatus.disconnected, none, 0, 0⟩).1).1 true).1.sessionsCreated = 1 := by
  have h := c4_connect_single_flight ⟨CStatus.connecting, none, 0, 0⟩
    ⟨CStatus.disconnected, none, 0, 0⟩ (Or.inl rfl) rfl
  exact ⟨Or.inl rfl, rfl, h.1, h.2.2.2.1⟩

/-- C10: when the underlying live-connect call fails,
`GenAILiveClient.connect` returns `false` (it never throws), resets the
status to `disconnected` (never stuck in `connecting`), clears the
stored session, and emits an `error` event. -/
theorem c10_connect_failure_resets (s : ClientState)
    (h : s.status = CStatus.disconnected) :
    (connect s false).2 = false ∧
    (connect s false).1.status = CStatus.disconnected ∧
    (connect s false).1.session = none ∧
    (connect s false).1.errorsEmitted = s.errorsEmitted + 1 ∧
    (connect s false).1.status ≠ CStatus.connecting := by
  simp [connect, connectStart, connectResolve, h]

/-- Witness for C10 at a concrete disconnected client. -/
theorem c10_witness :
    (⟨CStatus.disconnected, none, 0, 0⟩ : ClientState).status = CStatus.disconnected ∧
    (connect ⟨CStatus.disconnected, none, 0, 0⟩ false).2 = false ∧
    (connect ⟨CStatus.disconnected, none, 0, 0⟩ false).1.status = CStatus.disconnected ∧
    (connect ⟨CStatus.disconnected, none, 0, 0⟩ false).1.session = none ∧
    (connect ⟨CStatus.disconnected, none, 0, 0⟩ false).1.errorsEmitted = 1 := by
  have h := c10_connect_failure_resets ⟨CStatus.disconnected, none, 0, 0⟩ rfl
  exact ⟨rfl, h.1, h.2.1, h.2.2.1, h.2.2.2.1⟩

/-- C5: reconnection is bounded: starting from a supervisor state with no
manual disconnect and a zeroed attempt counter, one close-triggered
`attemptReconnect` followed by `MAX_RECONNECT_ATTEMPTS` consecutive timer
failures reaches the terminal error status with a surfaced terminal
error and no pending reconnect timer; and once the attempt counter has
reached the cap (without manual disconnect), `attemptReconnect` arms no
further timer and reports the terminal error status. -/
theorem c5_reconnect_bounded (s s2 : LiveApiState)
    (hm : s.manualDisconnect = false) (ha : s.reconnectAttempts = 0)
    (h2m : s2.manualDisconnect = false)
    (h2a : MAX_RECONNECT_ATTEMPTS ≤ s2.reconnectAttempts) :
    (failuresAfter (attemptReconnect s) MAX_RECONNECT_ATTEMPTS).connectionStatus
      = ConnStatus.error ∧
    (failuresAfter (attemptReconnect s) MAX_RECONNECT_ATTEMPTS).connectionError
      = some "Failed to reconnect after multiple attempts" ∧
    (failuresAfter (attemptReconnect s) MAX_RECONNECT_ATTEMPTS).reconnectTimerPending
      = false ∧
    (attemptReconnect s2).reconnectTimerPending = s2.reconnectTimerPending ∧
    (attemptReconnect s2).connectionStatus = ConnStatus.error := by
  have e5 : failuresAfter (attemptReconnect s) MAX_RECONNECT_ATTEMPTS
      = reconnectTimerFires (reconnectTimerFires (reconnectTimerFires
          (reconnectTimerFires (reconnectTimerFires (attemptReconnect s)
            false) false) false) false) false := rfl
  rw [e5]
  refine ⟨?_, ?_, ?_, ?_, ?_⟩
  · simp [reconnectTimerFires, attemptReconnect, hm, ha, MAX_RECONNECT_ATTEMPTS]
  · simp [reconnectTimerFires, attemptReconnect, hm, ha, MAX_RECONNECT_ATTEMPTS]
  · simp [reconnectTimerFires, attemptReconnect, hm, ha, MAX_RECONNECT_ATTEMPTS]
  · simp [attemptReconnect, h2m, h2a]
  · simp [attemptReconnect, h2m, h2a]

/-- Witness for C5 at a concrete connected supervisor state. -/
theorem c5_witness :
    (⟨true, ConnStatus.connected, none, 0, false, false, 0, false⟩ :
        LiveApiState).manualDisconnect = false ∧
    (⟨true, ConnStatus.connected, none, 0, false, false, 0, false⟩ :
        LiveApiState).reconnectAttempts = 0 ∧
    (⟨false, ConnStatus.error, none, 5, false, false, 0, false⟩ :
        LiveApiState).manualDisconnect = false ∧
    MAX_RECONNECT_ATTEMPTS ≤
      (⟨false, ConnStatus.error, none, 5, false, false, 0, false⟩ :
        LiveApiState).reconnectAttempts ∧
    (failuresAfter (attemptReconnect
        ⟨true, ConnStatus.connected, none, 0, false, false, 0, false⟩)
        MAX_RECONNECT_ATTEMPTS).connectionStatus = ConnStatus.error ∧
    (failuresAfter (attemptReconnect
        ⟨true, ConnStatus.connected, none, 0, false, false, 0, false⟩)
        MAX_RECONNECT_ATTEMPTS).reconnectTimerPending = false ∧
    (attemptReconnect
        ⟨false, ConnStatus.error, none, 5, false, false, 0, false⟩).reconnectTimerPending
      = false := by
  have h := c5_reconnect_bounded
    ⟨true, ConnStatus.connected, none, 0, false, false, 0, false⟩
    ⟨false, ConnStatus.error, none, 5, false, false, 0, false⟩
    rfl rfl rfl (by decide)
  exact ⟨rfl, rfl, rfl, by decide, h.1, h.2.2.1, h.2.2.2.1⟩

/-- C6 counterexample: a `toolcall` inbound control event at `now = 1000`
does not refresh the last-activity timestamp (it stays at 0), so it is
not the case that every inbound event refreshes it — only `open` and
`audio` handlers touch `lastHeartbeatRef`. -/
theorem c6_counterexample :
    (handleEvent ⟨true, ConnStatus.connected, none, 0, false, false, 0, false⟩
        LiveEvent.toolcall 1000).lastHeartbeat ≠ 1000 := by
  decide

/-- C6 (amended): only the `audio` and `open` handlers refresh the
last-activity timestamp, while `toolcall`, `setupcomplete`,
`interrupted` and `error` events leave it unchanged; and whenever a
health check runs while connected with
`now - last_activity > HEARTBEAT_TIMEOUT`, the supervisor force-closes
the channel, and the resulting close event (with no manual disconnect
and attempts below the cap) enters the reconnecting state with a
reconnect timer armed. -/
theorem c6_heartbeat_refresh_and_timeout (s : LiveApiState) (now : ℕ)
    (hc : s.connected = true)
    (ht : HEARTBEAT_TIMEOUT < now - s.lastHeartbeat)
    (hm : s.manualDisconnect = false)
    (hlt : s.reconnectAttempts < MAX_RECONNECT_ATTEMPTS) :
    (handleEvent s LiveEvent.audio now).lastHeartbeat = now ∧
    (handleEvent s LiveEvent.opened now).lastHeartbeat = now ∧
    (handleEvent s LiveEvent.toolcall now).lastHeartbeat = s.lastHeartbeat ∧
    (handleEvent s LiveEvent.setupcomplete now).lastHeartbeat = s.lastHeartbeat ∧
    (handleEvent s LiveEvent.interrupted now).lastHeartbeat = s.lastHeartbeat ∧
    (handleEvent s LiveEvent.errored now).lastHeartbeat = s.lastHeartbeat ∧
    (healthCheck s now).clientForceClosed = true ∧
    (handleEvent s LiveEvent.closed now).connectionStatus = ConnStatus.reconnecting ∧
    (handleEvent s LiveEvent.closed now).reconnectTimerPending = true := by
  have hnot : ¬ (MAX_RECONNECT_ATTEMPTS ≤ s.reconnectAttempts) := Nat.not_le.mpr hlt
  refine ⟨rfl, rfl, rfl, rfl, rfl, rfl, ?_, ?_, ?_⟩
  · simp [healthCheck, hc, ht]
  · simp [handleEvent, attemptReconnect, hm, hnot]
  · simp [handleEvent, attemptReconnect, hm, hnot]

/-- Witness for C6 (amended) at a concrete stalled connected state. -/
theorem c6_witness :
    (⟨true, ConnStatus.connected, none, 0, false, false, 0, false⟩ :
        LiveApiState).connected = true ∧
    HEARTBEAT_TIMEOUT < 400000 -
      (⟨true, ConnStatus.connected, none, 0, false, false, 0, false⟩ :
        LiveApiState).lastHeartbeat ∧
    (⟨true, ConnStatus.connected, none, 0, false, false, 0, false⟩ :
        LiveApiState).manualDisconnect = false ∧
    (⟨true, ConnStatus.connected, none, 0, false, false, 0, false⟩ :
        LiveApiState).reconnectAttempts < MAX_RECONNECT_ATTEMPTS ∧
    (handleEvent ⟨true, ConnStatus.connected, none, 0, false, false, 0, false⟩
        LiveEvent.audio 400000).lastHeartbeat = 400000 ∧
    (handleEvent ⟨true, ConnStatus.connected, none, 0, false, false, 0, false⟩
        LiveEvent.toolcall 400000).lastHeartbeat = 0 ∧
    (healthCheck ⟨true, ConnStatus.connected, none, 0, false, false, 0, false⟩
        400000).clientForceClosed = true ∧
    (handleEvent ⟨true, ConnStatus.connected, none, 0, false, false, 0, false⟩
        LiveEvent.closed 400000).reconnectTimerPending = true := by
  have h := c6_heartbeat_refresh_and_timeout
    ⟨true, ConnStatus.connected, none, 0, false, false, 0, false⟩ 400000
    rfl (by decide) rfl (by decide)
  exact ⟨rfl, by decide, rfl, by decide, h.1, h.2.2.1, h.2.2.2.2.2.2.1,
    h.2.2.2.2.2.2.2.2⟩

/-- C8 counterexample: the odd-length input `[0, 0, 7]` is not rejected;
`_processPCM16Chunk` silently drops the dangling byte `7` and returns
the single decoded sample, so decoding does not fail on odd-length
inputs (per ECMAScript the fractional `Float32Array` length truncates
and the out-of-bounds `getInt16` is caught and logged). -/
theorem c8_counterexample : _processPCM16Chunk [0, 0, 7] = [0] := by
  norm_num [_processPCM16Chunk, int16LE]

/-- C8 (amended): `_processPCM16Chunk` interprets its input as
consecutive little-endian signed 16-bit samples mapping each sample `s`
to `s / 32768`, decoding exactly `⌊n / 2⌋` pairs of the `n` input
bytes; it never fails, and on an even-length array extended by one
dangling byte it returns the same samples, silently truncating the odd
tail instead of rejecting it. -/
theorem c8_decode_truncates (chunk : List ℕ) (b : ℕ)
    (h : chunk.length % 2 = 0) :
    (∀ c : List ℕ, (_processPCM16Chunk c).length = c.length / 2) ∧
    _processPCM16Chunk (chunk ++ [b]) = _processPCM16Chunk chunk ∧
    (∀ i : Fin (chunk.length / 2),
      (_processPCM16Chunk chunk).getD i.1 0 =
        (int16LE (chunk.getD (2 * i.1) 0) (chunk.getD (2 * i.1 + 1) 0) : ℚ)
          / 32768) := by
  refine ⟨processPCM16Chunk_length, processPCM16Chunk_append_singleton chunk b h, ?_⟩
  intro i
  have hi := i.2
  exact processPCM16Chunk_getD chunk i.1 (by omega)

/-- Witness for C8 (amended) at the concrete frame `[1, 2, 3, 4]` with
dangling byte `9`. -/
theorem c8_witness :
    ([1, 2, 3, 4] : List ℕ).length % 2 = 0 ∧
    (∀ c : List ℕ, (_processPCM16Chunk c).length = c.length / 2) ∧
    _processPCM16Chunk ([1, 2, 3, 4] ++ [9]) = _processPCM16Chunk [1, 2, 3, 4] ∧
    (∀ i : Fin (([1, 2, 3, 4] : List ℕ).length / 2),
      (_processPCM16Chunk [1, 2, 3, 4]).getD i.1 0 =
        (int16LE (([1, 2, 3, 4] : List ℕ).getD (2 * i.1) 0)
          (([1, 2, 3, 4] : List ℕ).getD (2 * i.1 + 1) 0) : ℚ) / 32768) := by
  have h := c8_decode_truncates [1, 2, 3, 4] 9 (by decide)
  exact ⟨by decide, h.1, h.2.1, h.2.2⟩

/-- C9 counterexample: encode is not the inverse of decode.  The
two-byte frame `[255, 127]` (the sample 32767) decodes to
`32767 / 32768`, but re-encoding multiplies by 32767 (not 32768) before
rounding, yielding 32766, i.e. bytes `[254, 127] ≠ [255, 127]`. -/
theorem c9_counterexample :
    encodeSamples (_processPCM16Chunk [255, 127]) = [254, 127] ∧
    ([254, 127] : List ℕ) ≠ [255, 127] := by
  constructor
  · have h1 : _processPCM16Chunk [255, 127] = [(32767 : ℚ) / 32768] := by
      norm_num [_processPCM16Chunk, int16LE]
    have h2 : quantizeSample ((32767 : ℚ) / 32768) = 32766 := by
      rw [quantizeSample, jsRound,
        min_eq_right (by norm_num : (32767 : ℚ) / 32768 ≤ 1),
        max_eq_right (by norm_num : (-1 : ℚ) ≤ 32767 / 32768),
        Int.floor_eq_iff]
      constructor <;> norm_num
    rw [h1]
    simp only [encodeSamples, List.map_cons, List.map_nil, h2]
    decide
  · decide

/-- C9 (amended): the quantizer clamps to `[-1, 1]` and rounds to the
nearest integer, but with scale 32767 while the decoder divides by
32768, so the round trip is not the identity; instead, for every input
byte pair, the re-encoded 16-bit value differs from the original by at
most 1, and every quantized value lies in `[-32767, 32767]`. -/
theorem c9_quantize_roundtrip_error (lo hi : ℕ) :
    (-32768 ≤ int16LE lo hi ∧ int16LE lo hi ≤ 32767) ∧
    |quantizeSample ((int16LE lo hi : ℚ) / 32768) - int16LE lo hi| ≤ 1 ∧
    (∀ x : ℚ, -32767 ≤ quantizeSample x ∧ quantizeSample x ≤ 32767) := by
  obtain ⟨hl, hu⟩ := int16LE_bounds lo hi
  refine ⟨⟨hl, hu⟩, ?_, ?_⟩
  · have hlq : (-32768 : ℚ) ≤ ((int16LE lo hi : ℤ) : ℚ) := by exact_mod_cast hl
    have huq : ((int16LE lo hi : ℤ) : ℚ) ≤ 32767 := by exact_mod_cast hu
    have hmin : min 1 (((int16LE lo hi : ℤ) : ℚ) / 32768)
        = ((int16LE lo hi : ℤ) : ℚ) / 32768 := by
      rw [min_eq_right]
      rw [div_le_one (by norm_num : (0 : ℚ) < 32768)]
      linarith
    have hmax : max (-1) (((int16LE lo hi : ℤ) : ℚ) / 32768)
        = ((int16LE lo hi : ℤ) : ℚ) / 32768 := by
      rw [max_eq_right]
      rw [le_div_iff₀ (by norm_num : (0 : ℚ) < 32768)]
      linarith
    rw [quantizeSample, jsRound, hmin, hmax, abs_le]
    have hlow : int16LE lo hi - 1
        ≤ ⌊((int16LE lo hi : ℤ) : ℚ) / 32768 * 32767 + 1 / 2⌋ := by
      rw [Int.le_floor]
      push_cast
      linarith
    have hhigh : ⌊((int16LE lo hi : ℤ) : ℚ) / 32768 * 32767 + 1 / 2⌋
        < int16LE lo hi + 2 := by
      rw [Int.floor_lt]
      push_cast
      linarith
    omega
  · intro x
    set c : ℚ := max (-1) (min 1 x) with hcdef
    have hc1 : (-1 : ℚ) ≤ c := le_max_left _ _
    have hc2 : c ≤ 1 := max_le (by norm_num) (min_le_left _ _)
    have hlow : (-32767 : ℤ) ≤ ⌊c * 32767 + 1 / 2⌋ := by
      rw [Int.le_floor]
      push_cast
      linarith
    have hhigh : ⌊c * 32767 + 1 / 2⌋ < 32768 := by
      rw [Int.floor_lt]
      push_cast
      linarith
    rw [quantizeSample, jsRound, ← hcdef]
    omega

/-! ## Claim C2: interruption -/

theorem cancelAt_getD_cancelled :
    ∀ (l : List SUnit) (i : ℕ), i < l.length →
      ((cancelAt l i).getD i default).cancelled = true
  | [], i, h => by simp at h
  | u :: rest, 0, _ => by simp [cancelAt]
  | u :: rest, n + 1, h => by
    simp only [cancelAt, List.getD_cons_succ]
    exact cancelAt_getD_cancelled rest n (by simp only [List.length_cons] at h; omega)

theorem stop_scheduled_cancels (s : Streamer) (now : ℚ) (i : ℕ)
    (h : s.endOfQueueIdx = some i) :
    (stop s now).scheduled = cancelAt s.scheduled i := by
  simp [stop, h]

/-- C2 (amended): immediately after `stop` is called at clock `now`, the
output gain is zero (hard cut, no ramp), the playback queue is empty,
the tracked end-of-queue source has been stopped (cancelled) and
cleared, and the output is inaudible at every time `t`.  (Only the
end-of-queue source is explicitly cancelled — see the counterexample —
but the zeroed master gain silences every other scheduled unit.) -/
theorem c2_stop_silences (s : Streamer) (now t : ℚ) (i : ℕ)
    (h : s.endOfQueueIdx = some i) (hi : i < s.scheduled.length) :
    (stop s now).gainValue = 0 ∧
    (stop s now).audioQueue = [] ∧
    audibleAt (stop s now) t = false ∧
    ((stop s now).scheduled.getD i default).cancelled = true ∧
    (stop s now).endOfQueueIdx = none := by
  obtain ⟨fGain, fQueue, _, _, _, _, _, fIdx, _⟩ := stop_fields s now
  refine ⟨fGain, fQueue, ?_, ?_, fIdx⟩
  · simp only [audibleAt, fGain]
    simp
  · rw [stop_scheduled_cancels s now i h]
    exact cancelAt_getD_cancelled s.scheduled i hi

/-- Witness for C2 (amended): a streamer with one scheduled unit tracked
as the end-of-queue source, stopped at clock 5 and observed at time 7. -/
theorem c2_witness :
    (⟨[[0]], true, false, false, false, false, 1/10, 1,
        [⟨1/10, 1/24000, 1/96000, false⟩], some 0⟩ : Streamer).endOfQueueIdx
      = some 0 ∧
    0 < (⟨[[0]], true, false, false, false, false, 1/10, 1,
        [⟨1/10, 1/24000, 1/96000, false⟩], some 0⟩ : Streamer).scheduled.length ∧
    (stop ⟨[[0]], true, false, false, false, false, 1/10, 1,
        [⟨1/10, 1/24000, 1/96000, false⟩], some 0⟩ 5).gainValue = 0 ∧
    (stop ⟨[[0]], true, false, false, false, false, 1/10, 1,
        [⟨1/10, 1/24000, 1/96000, false⟩], some 0⟩ 5).audioQueue = [] ∧
    audibleAt (stop ⟨[[0]], true, false, false, false, false, 1/10, 1,
        [⟨1/10, 1/24000, 1/96000, false⟩], some 0⟩ 5) 7 = false ∧
    ((stop ⟨[[0]], true, false, false, false, false, 1/10, 1,
        [⟨1/10, 1/24000, 1/96000, false⟩], some 0⟩ 5).scheduled.getD 0
      default).cancelled = true := by
  have h := c2_stop_silences
    ⟨[[0]], true, false, false, false, false, 1/10, 1,
      [⟨1/10, 1/24000, 1/96000, false⟩], some 0⟩ 5 7 0 rfl (by decide)
  exact ⟨rfl, by decide, h.1, h.2.1, h.2.2.1, h.2.2.2.1⟩

/-- C2 counterexample: `stop` does not cancel every
scheduled-but-not-yet-started playback unit.  Push two one-sample
chunks at clock 0, tick, then stop at clock 0: two units are scheduled
(at 0.1 s and 0.1 s + 1/24000 s, neither started), but only the second
(the tracked end-of-queue source) is stopped; the first remains
uncancelled with a start time strictly in the future.  It stays
inaudible only because the master gain was cut to zero. -/
theorem c2_counterexample :
    ((stop (scheduleNextBuffer (addPCM16 (addPCM16 init [0, 0] 0) [0, 0] 0) 0)
        0).scheduled.getD 0 default).cancelled = false ∧
    (0 : ℚ) <
      ((stop (scheduleNextBuffer (addPCM16 (addPCM16 init [0, 0] 0) [0, 0] 0) 0)
          0).scheduled.getD 0 default).start ∧
    ((stop (scheduleNextBuffer (addPCM16 (addPCM16 init [0, 0] 0) [0, 0] 0) 0)
        0).scheduled.getD 1 default).cancelled = true := by
  have e0 : _processPCM16Chunk [0, 0] = [0] := by
    norm_num [_processPCM16Chunk, int16LE]
  have e0s : splitChunks [(0 : ℚ)] = [[0]] := by
    rw [splitChunks]
    norm_num [bufferSize]
  have e1 : addPCM16 init [0, 0] 0 =
      ⟨[], true, false, false, false, true, 1/10 + 1/24000, 1,
        [⟨1/10, 1/24000, 1/96000, false⟩], some 0⟩ := by
    rw [addPCM16]
    norm_num [init, e0, e0s, scheduleNextBuffer, scheduleUnits,
      initialBufferTime, scheduleAheadTime, maxDrift, sampleRate,
      perSourceFadeSeconds, max_def, min_def]
  have e2 : addPCM16
      (⟨[], true, false, false, false, true, 1/10 + 1/24000, 1,
        [⟨1/10, 1/24000, 1/96000, false⟩], some 0⟩ : Streamer) [0, 0] 0 =
      ⟨[[0]], true, false, false, false, true, 1/10 + 1/24000, 1,
        [⟨1/10, 1/24000, 1/96000, false⟩], some 0⟩ := by
    rw [addPCM16]
    norm_num [e0, e0s]
  have e3 : scheduleNextBuffer
      (⟨[[0]], true, false, false, false, true, 1/10 + 1/24000, 1,
        [⟨1/10, 1/24000, 1/96000, false⟩], some 0⟩ : Streamer) 0 =
      ⟨[], true, false, false, false, true, 1/10 + 1/24000 + 1/24000, 1,
        [⟨1/10, 1/24000, 1/96000, false⟩,
         ⟨1/10 + 1/24000, 1/24000, 1/96000, false⟩], some 1⟩ := by
    rw [scheduleNextBuffer]
    norm_num [scheduleUnits, scheduleAheadTime, maxDrift, sampleRate,
      perSourceFadeSeconds, max_def, min_def]
  have e4 : stop
      (⟨[], true, false, false, false, true, 1/10 + 1/24000 + 1/24000, 1,
        [⟨1/10, 1/24000, 1/96000, false⟩,
         ⟨1/10 + 1/24000, 1/24000, 1/96000, false⟩], some 1⟩ : Streamer) 0 =
      ⟨[], false, true, true, false, false, 0, 0,
        [⟨1/10, 1/24000, 1/96000, false⟩,
         ⟨1/10 + 1/24000, 1/24000, 1/96000, true⟩], none⟩ := by
    rw [stop]
    norm_num [cancelAt]
  rw [e1, e2, e3, e4]
  refine ⟨rfl, by norm_num, rfl⟩

/-! ## Claim C3: push after interruption -/

/-- C3: a push (`addPCM16`) that follows an interruption (`stop`)
starts a brand-new response: the output gain is restored to 1, every
buffer left in the queue comes from the newly pushed chunk (all frames
queued before the interruption are discarded), and the first newly
scheduled unit starts exactly at `now + initialBufferTime` (0.1 s),
independent of the stale pre-interruption cursor. -/
theorem c3_push_after_interrupt (s : Streamer) (chunk : List ℕ) (now : ℚ)
    (hInt : s.isInterrupted = true) (hPlay : s.isPlaying = false)
    (hG : s.isScheduling = false) (hLen : 2 ≤ chunk.length) :
    (addPCM16 s chunk now).gainValue = 1 ∧
    (∀ b ∈ (addPCM16 s chunk now).audioQueue,
      b ∈ splitChunks (_processPCM16Chunk chunk)) ∧
    ∃ u us, (addPCM16 s chunk now).scheduled = s.scheduled ++ u :: us ∧
      u.start = now + initialBufferTime := by
  obtain ⟨b0, rest0, hsplit⟩ := List.exists_cons_of_ne_nil
    (splitChunks_ne_nil _ (processPCM16Chunk_ne_nil chunk hLen))
  have hibt : (0 : ℚ) < initialBufferTime := by norm_num [initialBufferTime]
  have hc : now + initialBufferTime < now + scheduleAheadTime := by
    have : initialBufferTime < scheduleAheadTime := by
      norm_num [initialBufferTime, scheduleAheadTime]
    linarith
  have hd : ¬ maxDrift < (now + initialBufferTime) - now := by
    intro hcon
    simp only [maxDrift, initialBufferTime] at hcon
    linarith
  have hmax : max (now + initialBufferTime) now = now + initialBufferTime :=
    max_eq_left (by linarith)
  rw [addPCM16]
  simp only [hInt, if_true]
  have hPlay' :
      ({ s with
          isInterrupted := false
          isStreamComplete := false
          scheduledTime := now + initialBufferTime
          gainValue := 1
          audioQueue := ([] : List (List ℚ)) ++
            splitChunks (_processPCM16Chunk chunk) } : Streamer).isPlaying = false := hPlay
  rw [if_neg (by rw [hPlay']; exact Bool.false_ne_true)]
  set s4 : Streamer :=
    { s with
      isInterrupted := false
      isStreamComplete := false
      scheduledTime := now + initialBufferTime
      gainValue := 1
      audioQueue := ([] : List (List ℚ)) ++ splitChunks (_processPCM16Chunk chunk)
      isPlaying := true } with hs4
  obtain ⟨fSched, fQueue, _, fGain, _, _, _⟩ :=
    scheduleNextBuffer_fields s4 now (by rw [hs4]; exact hG)
  have hq4 : s4.audioQueue = splitChunks (_processPCM16Chunk chunk) := by
    rw [hs4]; exact List.nil_append _
  have hc4 : s4.scheduledTime = now + initialBufferTime := rfl
  refine ⟨?_, ?_, ?_⟩
  · rw [fGain]
  · intro b hb
    rw [fQueue] at hb
    have := scheduleUnits_queue_sub s4.audioQueue s4.scheduledTime now b hb
    rw [hq4] at this
    exact this
  · rw [fSched, hq4, hc4, hsplit]
    simp only [scheduleUnits, if_pos hc, if_neg hd]
    refine ⟨⟨max (now + initialBufferTime) now, (b0.length : ℚ) / sampleRate,
      min perSourceFadeSeconds ((b0.length : ℚ) / sampleRate / 4), false⟩,
      (scheduleUnits rest0
        (max (now + initialBufferTime) now + (b0.length : ℚ) / sampleRate) now).units,
      ?_, ?_⟩
    · rfl
    · exact hmax

/-- Witness for C3: a freshly interrupted streamer pushed the two-byte
chunk `[0, 0]` at clock 0. -/
theorem c3_witness :
    (⟨[[1/2]], false, true, true, false, false, 9, 0, [], none⟩ :
        Streamer).isInterrupted = true ∧
    (⟨[[1/2]], false, true, true, false, false, 9, 0, [], none⟩ :
        Streamer).isPlaying = false ∧
    (⟨[[1/2]], false, true, true, false, false, 9, 0, [], none⟩ :
        Streamer).isScheduling = false ∧
    2 ≤ ([0, 0] : List ℕ).length ∧
    (addPCM16 ⟨[[1/2]], false, true, true, false, false, 9, 0, [], none⟩
        [0, 0] 0).gainValue = 1 ∧
    (∀ b ∈ (addPCM16 ⟨[[1/2]], false, true, true, false, false, 9, 0, [], none⟩
        [0, 0] 0).audioQueue, b ∈ splitChunks (_processPCM16Chunk [0, 0])) ∧
    (∃ u us, (addPCM16 ⟨[[1/2]], false, true, true, false, false, 9, 0, [], none⟩
        [0, 0] 0).scheduled =
        (⟨[[1/2]], false, true, true, false, false, 9, 0, [], none⟩ :
          Streamer).scheduled ++ u :: us ∧
      u.start = 0 + initialBufferTime) := by
  have h := c3_push_after_interrupt
    ⟨[[1/2]], false, true, true, false, false, 9, 0, [], none⟩ [0, 0] 0
    rfl rfl rfl (by decide)
  exact ⟨rfl, rfl, rfl, by decide, h.1, h.2.1, h.2.2⟩

end Simili
